import Mathlib

/-!
Verification of the diagnostic pipeline and document-consistency model of the
`uvls` language server (`src/check.rs`, `src/main.rs`), via a shallow embedding
of the relevant Rust functions in Lean.
-/

namespace Uvls

/-- Document identifiers (`tower_lsp::lsp_types::Url`). -/
abbrev Url := String

/-- A zero-based line/character position (`lsp_types::Position`). -/
structure Position where
  line : Nat
  character : Nat
deriving DecidableEq, Repr

/-- A half-open range in the source buffer (`lsp_types::Range`). -/
structure Range where
  start : Position
  stop : Position
deriving DecidableEq, Repr

/-- Severity codes from `lsp_types::DiagnosticSeverity` (ERROR = 1). -/
def SEVERITY_ERROR : Nat := 1

/-- One diagnostic candidate (`struct ErrorInfo` in `check.rs`). -/
structure ErrorInfo where
  location : Range
  severity : Nat
  weight : Nat
  msg : String
deriving DecidableEq, Repr

/-- The editor-facing diagnostic (`lsp_types::Diagnostic`); only the fields set
by `ErrorInfo::diagnostic` are modelled, the rest are defaulted in the code. -/
structure Diagnostic where
  range : Range
  severity : Option Nat
  message : String
deriving DecidableEq, Repr

/-- `ErrorInfo::diagnostic` in `check.rs`. -/
def ErrorInfo.diagnostic (e : ErrorInfo) : Diagnostic :=
  { range := e.location, severity := some e.severity, message := e.msg }

/-- Weight of a maximal-weight element of the list, as computed by
`err.iter().max_by_key(|e| e.weight)` in `publish` (`check.rs`); `none` iff
the list is empty. -/
def maxWeight : List ErrorInfo → Option Nat
  | [] => none
  | e :: es =>
    match maxWeight es with
    | none => some e.weight
    | some m => some (max e.weight m)

/-- `publish` in `check.rs`, as the list of diagnostics sent to the client:
with a maximal weight present, the input is traversed in reverse, filtered to
entries of maximal weight, and converted; an empty input publishes `[]`. -/
def publish (err : List ErrorInfo) : List Diagnostic :=
  match maxWeight err with
  | none => []
  | some m => (err.reverse.filter (fun e => e.weight == m)).map ErrorInfo.diagnostic

/-- Per-document coordinator state (`struct DiagnosticState` in `check.rs`). -/
structure DiagnosticState where
  timestamp : Nat
  error : List ErrorInfo
deriving DecidableEq, Repr

/-- The coordinator's per-URI state map (`HashMap<Url, DiagnosticState>`). -/
abbrev SourceMap := Url → Option DiagnosticState

/-- `HashMap::insert` / in-place mutation of one entry, observed pointwise. -/
def updateMap (m : SourceMap) (uri : Url) (v : DiagnosticState) : SourceMap :=
  fun u => if u = uri then some v else m u

/-- The empty coordinator state map. -/
def emptyMap : SourceMap := fun _ => none

/-- `maybe_publish` in `check.rs`: the returned pair is the updated state map
and the error list handed to `publish` (`none` when nothing is published). -/
def maybe_publish (m : SourceMap) (uri : Url) (err : List ErrorInfo)
    (timestamp : Nat) : SourceMap × Option (List Diagnostic) :=
  match m uri with
  | some old =>
    if old.timestamp < timestamp then
      (updateMap m uri ⟨timestamp, err⟩, some (publish err))
    else if old.timestamp = timestamp then
      (updateMap m uri ⟨timestamp, old.error ++ err⟩,
       some (publish (old.error ++ err)))
    else
      (m, none)
  | none =>
      (updateMap m uri ⟨timestamp, err⟩, some (publish err))

/-- The coordinator loop (`diagnostic_handler`) applied to a sequence of
per-URI sub-batches, each `(uri, errors, timestamp)`, in order. -/
def run_all (m : SourceMap) (bs : List (Url × List ErrorInfo × Nat)) : SourceMap :=
  bs.foldl (fun m b => (maybe_publish m b.1 b.2.1 b.2.2).1) m

/-- Concrete diagnostics used for the coordinator scenarios. -/
def errA : ErrorInfo := ⟨⟨⟨0, 0⟩, ⟨0, 1⟩⟩, SEVERITY_ERROR, 100, "a"⟩

/-- Second concrete diagnostic. -/
def errB : ErrorInfo := ⟨⟨⟨1, 0⟩, ⟨1, 1⟩⟩, SEVERITY_ERROR, 100, "b"⟩

/-- Third concrete diagnostic. -/
def errC : ErrorInfo := ⟨⟨⟨2, 0⟩, ⟨2, 1⟩⟩, SEVERITY_ERROR, 100, "c"⟩

/-- Fourth concrete diagnostic. -/
def errD : ErrorInfo := ⟨⟨⟨3, 0⟩, ⟨3, 1⟩⟩, SEVERITY_ERROR, 100, "d"⟩

/-- A `tree_sitter::Node`, with the operations the checked code consumes:
kind, start/end position (row/column), `is_missing`, `is_error`, the node's
source-text slice (`source.byte_slice(node.byte_range())`), and children. -/
inductive TSNode where
  | mk (kind : String) (startRow startCol endRow endCol : Nat)
      (isMissing isError : Bool) (text : String) (children : List TSNode)

/-- `Node::kind`. -/
def TSNode.kind : TSNode → String
  | .mk k _ _ _ _ _ _ _ _ => k

/-- `Node::start_position().row`. -/
def TSNode.startRow : TSNode → Nat
  | .mk _ sr _ _ _ _ _ _ _ => sr

/-- `Node::start_position().column`. -/
def TSNode.startCol : TSNode → Nat
  | .mk _ _ sc _ _ _ _ _ _ => sc

/-- `Node::end_position().row`. -/
def TSNode.endRow : TSNode → Nat
  | .mk _ _ _ er _ _ _ _ _ => er

/-- `Node::end_position().column`. -/
def TSNode.endCol : TSNode → Nat
  | .mk _ _ _ _ ec _ _ _ _ => ec

/-- `Node::is_missing`. -/
def TSNode.isMissing : TSNode → Bool
  | .mk _ _ _ _ _ m _ _ _ => m

/-- `Node::is_error`. -/
def TSNode.isError : TSNode → Bool
  | .mk _ _ _ _ _ _ e _ _ => e

/-- The node's source-text slice. -/
def TSNode.text : TSNode → String
  | .mk _ _ _ _ _ _ _ t _ => t

/-- The node's children, in tree order. -/
def TSNode.children : TSNode → List TSNode
  | .mk _ _ _ _ _ _ _ _ cs => cs

mutual
def TSNode.deq : (a b : TSNode) → Decidable (a = b)
  | .mk k1 a1 b1 c1 d1 m1 e1 t1 cs1, .mk k2 a2 b2 c2 d2 m2 e2 t2 cs2 =>
    if h : k1 = k2 ∧ a1 = a2 ∧ b1 = b2 ∧ c1 = c2 ∧ d1 = d2 ∧ m1 = m2 ∧ e1 = e2 ∧ t1 = t2 then
      match TSNode.deqList cs1 cs2 with
      | isTrue hcs => isTrue (by
          obtain ⟨h1, h2, h3, h4, h5, h6, h7, h8⟩ := h
          subst h1; subst h2; subst h3; subst h4; subst h5; subst h6; subst h7
          subst h8; subst hcs; rfl)
      | isFalse hcs => isFalse (by intro hh; cases hh; exact hcs rfl)
    else
      isFalse (by intro hh; cases hh; exact h ⟨rfl, rfl, rfl, rfl, rfl, rfl, rfl, rfl⟩)
def TSNode.deqList : (a b : List TSNode) → Decidable (a = b)
  | [], [] => isTrue rfl
  | [], _ :: _ => isFalse (by intro h; cases h)
  | _ :: _, [] => isFalse (by intro h; cases h)
  | a :: as, b :: bs =>
    match TSNode.deq a b, TSNode.deqList as bs with
    | isTrue h1, isTrue h2 => isTrue (by rw [h1, h2])
    | isFalse h1, _ => isFalse (by intro h; cases h; exact h1 rfl)
    | _, isFalse h2 => isFalse (by intro h; cases h; exact h2 rfl)
end

instance : DecidableEq TSNode := TSNode.deq

mutual
/-- One step of `ts_filterd_visit` (`check.rs`): the node itself is visited,
and its subtree is entered only when the predicate returns true on it. -/
def visitOne (p : TSNode → Bool) : TSNode → List TSNode
  | .mk k sr sc er ec m e t cs =>
    TSNode.mk k sr sc er ec m e t cs ::
      (if p (TSNode.mk k sr sc er ec m e t cs) then visitMany p cs else [])
/-- Pre-order visit of a forest, as the cursor's sibling walk. -/
def visitMany (p : TSNode → Bool) : List TSNode → List TSNode
  | [] => []
  | c :: cs => visitOne p c ++ visitMany p cs
end

/-- `ts_filterd_visit` in `check.rs`, as the ordered list of nodes on which
the predicate is invoked: the walk starts at the root's first child and
backtracking stops at the root, so the root itself is never visited. -/
def ts_filterd_visit (p : TSNode → Bool) (root : TSNode) : List TSNode :=
  visitMany p root.children

/-- `x` is reached by the filtered walk below `n`: it is a child of `n`, or it
is reached below a child on which the predicate returned true. -/
inductive VisitedVia (p : TSNode → Bool) : TSNode → TSNode → Prop where
  | here {c n : TSNode} : c ∈ n.children → VisitedVia p c n
  | there {x c n : TSNode} : c ∈ n.children → p c = true → VisitedVia p x c →
      VisitedVia p x n

/-- `x` is a proper descendant of `n`. -/
inductive IsDesc : TSNode → TSNode → Prop where
  | here {c n : TSNode} : c ∈ n.children → IsDesc c n
  | there {x c n : TSNode} : c ∈ n.children → IsDesc x c → IsDesc x n

/-- Modelled from the spec: `node_range` lives in `util.rs`, which is not among
the sources here.  Per §3 a diagnostic's location is the node's half-open
line/column range in the buffer. -/
def node_range (n : TSNode) : Range :=
  ⟨⟨n.startRow, n.startCol⟩, ⟨n.endRow, n.endCol⟩⟩

/-- The line-break diagnostic message of `check_sanity`. -/
def lineBreakMsg : String := "line breaks are only allowed inside parenthesis"

/-- The duplicate-header diagnostic message of `check_sanity`, spelled as in
the code. -/
def headerMsg : String := "features have to be in diffrent lines"

/-- The multiline-string diagnostic message of `check_sanity`. -/
def multilineMsg : String := "multiline strings are not supported"

/-- The weight-100 line-break diagnostic pushed by `check_sanity`. -/
def lineBreakError (node : TSNode) : ErrorInfo :=
  ⟨node_range node, SEVERITY_ERROR, 100, lineBreakMsg⟩

/-- The weight-100 duplicate-header diagnostic pushed by `check_sanity`. -/
def headerError (node : TSNode) : ErrorInfo :=
  ⟨node_range node, SEVERITY_ERROR, 100, headerMsg⟩

/-- The weight-100 multiline-string diagnostic pushed by `check_sanity`. -/
def multilineError (node : TSNode) : ErrorInfo :=
  ⟨node_range node, SEVERITY_ERROR, 100, multilineMsg⟩

/-- The Rust iterator `a..b` over rows, as a list. -/
def rowsOfRange (a b : Nat) : List Nat := List.range' a (b - a)

/-- The walker predicate of the expression check in `check_sanity`: descend
exactly into nodes that are not `nested_expr`. -/
def sanityDescend (n : TSNode) : Bool := !(n.kind == "nested_expr")

/-- The rows pushed onto `ok_lines` while the walker visits `l` in order:
each visited `nested_expr` node contributes its row span. -/
def collectRows : List TSNode → List Nat
  | [] => []
  | n :: ns =>
    (if n.kind == "nested_expr" then rowsOfRange n.startRow n.endRow else []) ++
      collectRows ns

/-- `ok_lines` of the expression check in `check_sanity`. -/
def ok_lines (node : TSNode) : List Nat :=
  collectRows (ts_filterd_visit sanityDescend node)

/-- The `expr` branch of `check_sanity`: a single-line expression is skipped;
otherwise each row of the node's span not on `ok_lines` pushes one line-break
diagnostic. -/
def expr_sanity (node : TSNode) : List ErrorInfo :=
  if node.startRow == node.endRow then []
  else
    (rowsOfRange node.startRow node.endRow).filterMap (fun i =>
      if (ok_lines node).any (fun k => k == i) then none
      else some (lineBreakError node))

/-- One query match of the `check_sanity` tree-sitter query: the pattern index
and the captured node (`i.captures[0].node`). -/
structure QueryMatch where
  pattern_index : Nat
  node : TSNode

/-- One iteration of the match loop in `check_sanity`, acting on the
accumulated error list and the rows of the `lines` header map. -/
def sanity_step (acc : List ErrorInfo × List Nat) (m : QueryMatch) :
    List ErrorInfo × List Nat :=
  let node := m.node
  if node.kind == "expr" then
    (acc.1 ++ expr_sanity node, acc.2)
  else if m.pattern_index == 0 then
    (acc.1 ++
      (if node.startRow == node.endRow then [] else [lineBreakError node]) ++
      (if acc.2.contains node.startRow then [headerError node] else []),
     node.startRow :: acc.2)
  else
    (acc.1 ++
      (if node.startRow == node.endRow then [] else [multilineError node]),
     acc.2)

/-- `check_sanity` in `check.rs`, over the list of query matches produced by
the (external) `check_sanity` tree-sitter query. -/
def check_sanity (ms : List QueryMatch) : List ErrorInfo :=
  (ms.foldl sanity_step ([], [])).1

/-- The same match loop, written as a recursion that makes the emitted-errors
prefix structure explicit; `seen` is the set of header rows recorded so far. -/
def sanity_run (seen : List Nat) : List QueryMatch → List ErrorInfo
  | [] => []
  | m :: ms =>
    let node := m.node
    if node.kind == "expr" then
      expr_sanity node ++ sanity_run seen ms
    else if m.pattern_index == 0 then
      (if node.startRow == node.endRow then [] else [lineBreakError node]) ++
      (if seen.contains node.startRow then [headerError node] else []) ++
      sanity_run (node.startRow :: seen) ms
    else
      (if node.startRow == node.endRow then [] else [multilineError node]) ++
      sanity_run seen ms

/-- The duplicate-header diagnostics for row `x` in an emitted error list:
entries carrying the duplicate-header message whose location starts on
line `x`. -/
def dupErrCount (x : Nat) (errs : List ErrorInfo) : Nat :=
  (errs.filter (fun e => e.msg == headerMsg && e.location.start.line == x)).length

/-- The header-pattern matches (pattern index 0, and not captured by the
`expr` branch) whose node starts on row `x`. -/
def headerCount (x : Nat) (ms : List QueryMatch) : Nat :=
  (ms.filter (fun m =>
    !(m.node.kind == "expr") && m.pattern_index == 0 && m.node.startRow == x)).length

/-- `str::contains` for a substring pattern. -/
def strContains (s pat : String) : Bool := decide (pat.toList <:+: s.toList)

/-- The operator-substring disjunction of `classify_error`, in source order. -/
def containsOperator (s : String) : Bool :=
  strContains s "=>" || strContains s "<=>" || strContains s "&" ||
  strContains s "|" || strContains s "+" || strContains s "-" ||
  strContains s "*" || strContains s "/" || strContains s ">" ||
  strContains s "<" || strContains s "=="

/-- The dangling-operand message of `classify_error`. -/
def missingLhsRhsMsg : String := "missing lhs or rhs expression"

/-- The fallback message of `classify_error`. -/
def unknownSyntaxMsg : String := "unknown syntax error"

/-- `classify_error` in `check.rs`. -/
def classify_error (root : TSNode) : ErrorInfo :=
  if root.startRow == root.endRow then
    if containsOperator root.text then
      ⟨node_range root, SEVERITY_ERROR, 80, missingLhsRhsMsg⟩
    else
      ⟨node_range root, SEVERITY_ERROR, 80, unknownSyntaxMsg⟩
  else
    ⟨node_range root, SEVERITY_ERROR, 80, unknownSyntaxMsg⟩

/-- The walker predicate of `check_errors`: missing and error nodes are leaves
for this traversal. -/
def errorsDescend (n : TSNode) : Bool := !(n.isMissing || n.isError)

/-- The diagnostic `check_errors` pushes for a missing-node marker. -/
def missingError (n : TSNode) : ErrorInfo :=
  ⟨node_range n, SEVERITY_ERROR, 80, "missing " ++ n.kind⟩

/-- `check_errors` in `check.rs`: walk the tree without entering missing or
error nodes; a missing node reports `missing <kind>` directly, an error node
reports `classify_error`. -/
def check_errors (root : TSNode) : List ErrorInfo :=
  (ts_filterd_visit errorsDescend root).filterMap (fun n =>
    if n.isMissing then some (missingError n)
    else if n.isError then some (classify_error n)
    else none)

/-- The document ownership states (`DocumentState` in `document.rs`); the
modification time is the freshness oracle for OS-owned entries. -/
inductive DocumentState where
  | OwnedByEditor
  | OwnedByOs (modified : Nat)
deriving DecidableEq, Repr

/-- Modelled from the spec: `DocumentState::can_update` lives in
`document.rs`, which is not among the sources here.  Per §3/§4.6 an
`OwnedByEditor` entry is never replaced by a disk load, and an `OwnedByOs(t)`
entry accepts an `OwnedByOs(t')` replacement only if `t'` is strictly newer;
an editor-open overwrites unconditionally (that path does not consult this
check). -/
def DocumentState.can_update : DocumentState → DocumentState → Bool
  | DocumentState.OwnedByEditor, _ => false
  | DocumentState.OwnedByOs t, DocumentState.OwnedByOs t' => decide (t < t')
  | DocumentState.OwnedByOs _, DocumentState.OwnedByEditor => true

/-- An in-memory document entry (`AsyncDraft`), reduced to the fields the
ownership claims observe: its state and its content. -/
structure AsyncDraft where
  state : DocumentState
  data : String
deriving DecidableEq, Repr

/-- The server's document map (`DashMap<Url, AsyncDraft>`). -/
abbrev DocMap := Url → Option AsyncDraft

/-- Insertion into the document map, observed pointwise. -/
def insertDoc (m : DocMap) (uri : Url) (d : AsyncDraft) : DocMap :=
  fun u => if u = uri then some d else m u

/-- Removal from the document map, observed pointwise. -/
def removeDoc (m : DocMap) (uri : Url) : DocMap :=
  fun u => if u = uri then none else m u

/-- `Backend::remove` in `main.rs`: `remove_if` drops the entry when
`by_editor` holds or the entry is not editor-owned; the boolean records
whether the semantic registry's `delete` was notified (exactly when an entry
was removed). -/
def Backend.remove (m : DocMap) (uri : Url) (by_editor : Bool) : DocMap × Bool :=
  match m uri with
  | some v =>
    if by_editor = true ∨ v.state ≠ DocumentState.OwnedByEditor then
      (removeDoc m uri, true)
    else
      (m, false)
  | none => (m, false)

/-- `load_blocking` in `main.rs`.  The filesystem outcome is passed in as
`file`: `none` models an open/metadata failure, `some (t, none)` a read
failure after the modification time `t` was obtained, `some (t, some data)` a
successful read.  Any failure leaves the map unchanged (only logged). -/
def load_blocking (m : DocMap) (uri : Url) (file : Option (Nat × Option String)) :
    DocMap :=
  match file with
  | none => m
  | some (modified, read) =>
    let blocked :=
      match m uri with
      | some old => !(old.state.can_update (DocumentState.OwnedByOs modified))
      | none => false
    if blocked then m
    else
      match read with
      | none => m
      | some data =>
        match m uri with
        | none => insertDoc m uri ⟨DocumentState.OwnedByOs modified, data⟩
        | some e =>
          if e.state.can_update (DocumentState.OwnedByOs modified) then
            insertDoc m uri ⟨DocumentState.OwnedByOs modified, data⟩
          else m

/-- `Backend::load` in `main.rs`: an editor-owned entry short-circuits the
load; otherwise `load_blocking` runs against the filesystem outcome. -/
def Backend.load (m : DocMap) (uri : Url) (file : Option (Nat × Option String)) :
    DocMap :=
  let owned :=
    match m uri with
    | some doc => decide (doc.state = DocumentState.OwnedByEditor)
    | none => false
  if owned then m else load_blocking m uri file

/-- `Backend::did_change` in `main.rs`: when the URI has an entry the draft is
updated in place and an empty diagnostic list is published for the URI;
otherwise nothing is updated or published.  The second component is the
published list (`none` when no publish happens); `upd` abstracts
`AsyncDraft::update` (in `document.rs`, not among the sources). -/
def did_change (m : DocMap) (uri : Url) (upd : AsyncDraft → AsyncDraft) :
    DocMap × Option (List Diagnostic) :=
  match m uri with
  | some doc => (insertDoc m uri (upd doc), some [])
  | none => (m, none)

/-- A concrete leaf node factory for scenarios. -/
def leafNode (kind : String) (sr sc er ec : Nat) : TSNode :=
  TSNode.mk kind sr sc er ec false false "" []

/-- A concrete single-line header node on row 3. -/
def hNode1 : TSNode := leafNode "feature" 3 0 3 4

/-- A second concrete single-line header node on row 3. -/
def hNode2 : TSNode := leafNode "feature" 3 6 3 10

/-- A concrete missing-node marker, for the `check_errors` scenario. -/
def missNode : TSNode := TSNode.mk "name" 0 0 0 2 true false "" []

/-- A concrete tree with one missing leaf, for the `check_errors` scenario. -/
def missTree : TSNode :=
  TSNode.mk "blk" 0 0 1 0 false false "" [missNode]

/-- A concrete three-node chain for the walker scenario. -/
def chainTree : TSNode :=
  TSNode.mk "root" 0 0 3 0 false false ""
    [TSNode.mk "a" 0 0 1 0 false false ""
      [TSNode.mk "b" 0 0 0 5 false false "" []]]

/-- A concrete three-line `expr` node whose nested parenthesised
sub-expression covers its first row only. -/
def exprNode : TSNode :=
  TSNode.mk "expr" 0 0 2 3 false false ""
    [TSNode.mk "nested_expr" 0 2 1 1 false false "" []]

/-- The empty document map. -/
def emptyDocMap : DocMap := fun _ => none

/-- A concrete editor-owned draft. -/
def editorDraft : AsyncDraft := ⟨DocumentState.OwnedByEditor, "editor"⟩

/-- A concrete OS-owned draft with modification time 5. -/
def osDraft : AsyncDraft := ⟨DocumentState.OwnedByOs 5, "disk"⟩

lemma maybe_publish_other (m : SourceMap) (uri uri' : Url) (err : List ErrorInfo)
    (ts : Nat) (h : uri' ≠ uri) :
    (maybe_publish m uri err ts).1 uri' = m uri' := by
  unfold maybe_publish
  cases m uri with
  | none => simp [updateMap, h]
  | some old =>
    by_cases h1 : old.timestamp < ts
    · simp [h1, updateMap, h]
    · by_cases h2 : old.timestamp = ts
      · simp [h1, h2, updateMap, h]
      · simp [h1, h2]

lemma maybe_publish_step (m : SourceMap) (uri uri' : Url) (err : List ErrorInfo)
    (ts : Nat) (old : DiagnosticState) (h : m uri = some old) :
    ∃ new, (maybe_publish m uri' err ts).1 uri = some new ∧
      old.timestamp ≤ new.timestamp := by
  by_cases huri : uri = uri'
  · subst huri
    unfold maybe_publish
    rw [h]
    by_cases h1 : old.timestamp < ts
    · exact ⟨⟨ts, err⟩, by simp [h1, updateMap], Nat.le_of_lt h1⟩
    · by_cases h2 : old.timestamp = ts
      · exact ⟨⟨ts, old.error ++ err⟩, by simp [h1, h2, updateMap], Nat.le_of_eq h2⟩
      · exact ⟨old, by simp [h1, h2, h], Nat.le_refl _⟩
  · exact ⟨old, by rw [maybe_publish_other m uri' uri err ts huri, h], Nat.le_refl _⟩

lemma run_all_mono (bs : List (Url × List ErrorInfo × Nat)) :
    ∀ (m : SourceMap) (uri : Url) (old : DiagnosticState), m uri = some old →
    ∃ new, run_all m bs uri = some new ∧ old.timestamp ≤ new.timestamp := by
  induction bs with
  | nil => exact fun m uri old h => ⟨old, h, Nat.le_refl _⟩
  | cons b bs ih =>
    intro m uri old h
    obtain ⟨mid, hmid, hle⟩ := maybe_publish_step m uri b.1 b.2.1 b.2.2 old h
    obtain ⟨new, hnew, hle'⟩ := ih _ uri mid hmid
    exact ⟨new, hnew, Nat.le_trans hle hle'⟩

/-- Claim C1: on a batch with timestamp strictly greater than the stored one
(or with no stored state) `maybe_publish` replaces the stored error list with
the batch's errors and stores the batch timestamp; on an equal timestamp it
appends the batch's errors to the stored list; on a strictly smaller timestamp
the batch has no effect.  Processing B1 (ts 5, {a}), B2 (ts 5, {b}),
B3 (ts 3, {c}) in order leaves stored state {a, b} at timestamp 5, and
B1 (ts 5, {a}) then B4 (ts 6, {d}) leaves {d} at timestamp 6. -/
theorem maybe_publish_merge_semantics :
    (∀ (m : SourceMap) uri err ts old, m uri = some old → old.timestamp < ts →
      (maybe_publish m uri err ts).1 uri = some ⟨ts, err⟩) ∧
    (∀ (m : SourceMap) uri err ts, m uri = none →
      (maybe_publish m uri err ts).1 uri = some ⟨ts, err⟩) ∧
    (∀ (m : SourceMap) uri err ts old, m uri = some old → old.timestamp = ts →
      (maybe_publish m uri err ts).1 uri = some ⟨ts, old.error ++ err⟩) ∧
    (∀ (m : SourceMap) uri err ts old, m uri = some old → ts < old.timestamp →
      maybe_publish m uri err ts = (m, none)) ∧
    run_all emptyMap [("u", [errA], 5), ("u", [errB], 5), ("u", [errC], 3)] "u" =
      some ⟨5, [errA, errB]⟩ ∧
    run_all emptyMap [("u", [errA], 5), ("u", [errD], 6)] "u" =
      some ⟨6, [errD]⟩ := by
  refine ⟨?_, ?_, ?_, ?_, by decide, by decide⟩
  · intro m uri err ts old h hlt
    unfold maybe_publish
    rw [h]
    simp [hlt, updateMap]
  · intro m uri err ts h
    unfold maybe_publish
    rw [h]
    simp [updateMap]
  · intro m uri err ts old h heq
    unfold maybe_publish
    rw [h]
    simp [heq, updateMap]
  · intro m uri err ts old h hlt
    unfold maybe_publish
    rw [h]
    simp [Nat.not_lt_of_lt hlt, Nat.ne_of_gt hlt]

/-- Witness for C1: the fresh-entry case at a concrete input. -/
theorem maybe_publish_merge_semantics_witness :
    (maybe_publish emptyMap "u" [errA] 5).1 "u" = some ⟨5, [errA]⟩ :=
  maybe_publish_merge_semantics.2.1 emptyMap "u" [errA] 5 rfl

/-- Claim C2: the stored timestamp for a URI is monotonically non-decreasing
across every sequence of `maybe_publish` calls, and a batch with a strictly
smaller timestamp leaves the whole state map unchanged and publishes
nothing. -/
theorem maybe_publish_timestamp_monotone :
    (∀ (m : SourceMap) uri err ts old, m uri = some old → ts < old.timestamp →
      maybe_publish m uri err ts = (m, none)) ∧
    (∀ (m : SourceMap) uri uri' err ts old new, m uri = some old →
      (maybe_publish m uri' err ts).1 uri = some new →
      old.timestamp ≤ new.timestamp) ∧
    (∀ bs (m : SourceMap) uri old, m uri = some old →
      ∃ new, run_all m bs uri = some new ∧ old.timestamp ≤ new.timestamp) := by
  refine ⟨?_, ?_, fun bs m uri old h => run_all_mono bs m uri old h⟩
  · intro m uri err ts old h hlt
    unfold maybe_publish
    rw [h]
    simp [Nat.not_lt_of_lt hlt, Nat.ne_of_gt hlt]
  · intro m uri uri' err ts old new h hnew
    obtain ⟨new', hnew', hle⟩ := maybe_publish_step m uri uri' err ts old h
    rw [hnew] at hnew'
    cases hnew'
    exact hle

/-- Witness for C2: a stale batch at timestamp 3 against stored timestamp 5
leaves the map unchanged and publishes nothing. -/
theorem maybe_publish_timestamp_monotone_witness :
    maybe_publish (updateMap emptyMap "u" ⟨5, [errA]⟩) "u" [errC] 3 =
      (updateMap emptyMap "u" ⟨5, [errA]⟩, none) :=
  maybe_publish_timestamp_monotone.1 (updateMap emptyMap "u" ⟨5, [errA]⟩)
    "u" [errC] 3 ⟨5, [errA]⟩ (by decide) (by decide)

lemma maxWeight_le (err : List ErrorInfo) (w : Nat) (h : maxWeight err = some w) :
    ∀ e ∈ err, e.weight ≤ w := by
  induction err generalizing w with
  | nil => simp
  | cons a es ih =>
    intro e he
    unfold maxWeight at h
    cases hes : maxWeight es with
    | none =>
      rw [hes] at h
      cases h
      rcases List.mem_cons.mp he with h | h
      · exact h ▸ Nat.le_refl _
      · cases es with
        | nil => simp at h
        | cons b bs =>
          cases hmw : maxWeight bs <;> rw [maxWeight, hmw] at hes <;> simp at hes
    | some m =>
      rw [hes] at h
      cases h
      rcases List.mem_cons.mp he with h | h
      · exact h ▸ Nat.le_max_left _ _
      · exact Nat.le_trans (ih m hes e h) (Nat.le_max_right _ _)

lemma maxWeight_mem (err : List ErrorInfo) (w : Nat) (h : maxWeight err = some w) :
    ∃ e ∈ err, e.weight = w := by
  induction err generalizing w with
  | nil => simp [maxWeight] at h
  | cons a es ih =>
    unfold maxWeight at h
    cases hes : maxWeight es with
    | none =>
      rw [hes] at h
      cases h
      exact ⟨a, List.mem_cons_self a es, rfl⟩
    | some m =>
      rw [hes] at h
      cases h
      by_cases hm : a.weight ≤ m
      · obtain ⟨e, he, hw⟩ := ih m hes
        exact ⟨e, List.mem_cons_of_mem a he, by rw [hw]; exact (Nat.max_eq_right hm).symm⟩
      · exact ⟨a, List.mem_cons_self a es,
          (Nat.max_eq_left (Nat.le_of_not_le hm)).symm⟩

lemma maxWeight_ne_none (err : List ErrorInfo) (h : err ≠ []) :
    ∃ w, maxWeight err = some w := by
  cases err with
  | nil => exact absurd rfl h
  | cons a es =>
    unfold maxWeight
    cases maxWeight es with
    | none => exact ⟨a.weight, rfl⟩
    | some m => exact ⟨max a.weight m, rfl⟩

lemma length_filter_reverse (p : ErrorInfo → Bool) (l : List ErrorInfo) :
    (l.reverse.filter p).length = (l.filter p).length := by
  induction l with
  | nil => rfl
  | cons a l ih =>
    rw [List.reverse_cons, List.filter_append, List.length_append, ih]
    by_cases hp : p a = true <;> simp [List.filter_cons, hp]

/-- Claim C3: `publish` sends an empty diagnostic set for an empty input, and
for a non-empty input exactly the diagnostics whose weight equals the maximum
weight present, in reverse insertion order, converted to the editor format;
every published diagnostic comes from a max-weight entry and no max-weight
entry is omitted. -/
theorem publish_max_weight_spec :
    publish [] = [] ∧
    ∀ err, err ≠ [] → ∃ w, maxWeight err = some w ∧
      (∀ e ∈ err, e.weight ≤ w) ∧ (∃ e ∈ err, e.weight = w) ∧
      publish err =
        (err.reverse.filter (fun e => e.weight == w)).map ErrorInfo.diagnostic ∧
      (∀ e ∈ err, e.weight = w → e.diagnostic ∈ publish err) ∧
      (∀ d ∈ publish err, ∃ e ∈ err, e.weight = w ∧ d = e.diagnostic) ∧
      (publish err).length = (err.filter (fun e => e.weight == w)).length := by
  refine ⟨rfl, ?_⟩
  intro err hne
  obtain ⟨w, hw⟩ := maxWeight_ne_none err hne
  have hpub : publish err =
      (err.reverse.filter (fun e => e.weight == w)).map ErrorInfo.diagnostic := by
    unfold publish
    rw [hw]
  refine ⟨w, hw, maxWeight_le err w hw, maxWeight_mem err w hw, hpub, ?_, ?_, ?_⟩
  · intro e he hew
    rw [hpub]
    exact List.mem_map_of_mem ErrorInfo.diagnostic
      (List.mem_filter.mpr ⟨List.mem_reverse.mpr he, by simp [hew]⟩)
  · intro d hd
    rw [hpub] at hd
    obtain ⟨e, he, hde⟩ := List.mem_map.mp hd
    obtain ⟨he', hew⟩ := List.mem_filter.mp he
    exact ⟨e, List.mem_reverse.mp he', by simpa using hew, hde.symm⟩
  · rw [hpub, List.length_map, length_filter_reverse]

/-- Witness for C3: the single-element list at a concrete input. -/
theorem publish_max_weight_spec_witness :
    ∃ w, maxWeight [errA] = some w ∧
      (∀ e ∈ [errA], e.weight ≤ w) ∧ (∃ e ∈ [errA], e.weight = w) ∧
      publish [errA] =
        ([errA].reverse.filter (fun e => e.weight == w)).map ErrorInfo.diagnostic ∧
      (∀ e ∈ [errA], e.weight = w → e.diagnostic ∈ publish [errA]) ∧
      (∀ d ∈ publish [errA], ∃ e ∈ [errA], e.weight = w ∧ d = e.diagnostic) ∧
      (publish [errA]).length = ([errA].filter (fun e => e.weight == w)).length :=
  publish_max_weight_spec.2 [errA] (by decide)

mutual
theorem visitOne_sublist (p : TSNode → Bool) (n : TSNode) :
    List.Sublist (visitOne p n) (visitOne (fun _ => true) n) := by
  match n with
  | .mk k sr sc er ec m e t cs =>
    rw [visitOne, visitOne]
    refine List.Sublist.cons₂ _ ?_
    by_cases hp : p (TSNode.mk k sr sc er ec m e t cs) = true
    · simp only [hp, if_true]
      exact visitMany_sublist p cs
    · simp only [hp, if_false, if_true]
      exact List.nil_sublist _
theorem visitMany_sublist (p : TSNode → Bool) (cs : List TSNode) :
    List.Sublist (visitMany p cs) (visitMany (fun _ => true) cs) := by
  match cs with
  | [] => rw [visitMany]; exact List.nil_sublist _
  | c :: cs =>
    rw [visitMany, visitMany]
    exact List.Sublist.append (visitOne_sublist p c) (visitMany_sublist p cs)
end

lemma visitedVia_iff (p : TSNode → Bool) (x n : TSNode) :
    VisitedVia p x n ↔ ∃ c ∈ n.children, x = c ∨ (p c = true ∧ VisitedVia p x c) := by
  constructor
  · intro h
    cases h with
    | here hc => exact ⟨_, hc, Or.inl rfl⟩
    | there hc hp hv => exact ⟨_, hc, Or.inr ⟨hp, hv⟩⟩
  · rintro ⟨c, hc, rfl | ⟨hp, hv⟩⟩
    · exact VisitedVia.here hc
    · exact VisitedVia.there hc hp hv

mutual
theorem mem_visitOne_via (p : TSNode → Bool) (c x : TSNode) :
    x ∈ visitOne p c ↔ (x = c ∨ (p c = true ∧ VisitedVia p x c)) := by
  match c with
  | .mk k sr sc er ec m e t cs =>
    rw [visitOne, List.mem_cons]
    apply or_congr Iff.rfl
    by_cases hp : p (TSNode.mk k sr sc er ec m e t cs) = true
    · rw [if_pos hp, mem_visitMany_via p cs x]
      constructor
      · intro h
        exact ⟨hp, (visitedVia_iff p x _).mpr h⟩
      · intro h
        exact (visitedVia_iff p x _).mp h.2
    · rw [if_neg hp]
      constructor
      · intro h
        exact absurd h (List.not_mem_nil x)
      · intro h
        exact absurd h.1 hp
theorem mem_visitMany_via (p : TSNode → Bool) (cs : List TSNode) (x : TSNode) :
    x ∈ visitMany p cs ↔ ∃ c ∈ cs, x = c ∨ (p c = true ∧ VisitedVia p x c) := by
  match cs with
  | [] => rw [visitMany]; simp
  | c :: cs =>
    rw [visitMany, List.mem_append, mem_visitOne_via p c x, mem_visitMany_via p cs x]
    constructor
    · rintro (h | ⟨c', hc', h'⟩)
      · exact ⟨c, List.mem_cons_self c cs, h⟩
      · exact ⟨c', List.mem_cons_of_mem c hc', h'⟩
    · rintro ⟨c', hc', h'⟩
      rcases List.mem_cons.mp hc' with rfl | hc'
      · exact Or.inl h'
      · exact Or.inr ⟨c', hc', h'⟩
end

lemma isDesc_iff_visitedVia_true (x n : TSNode) :
    IsDesc x n ↔ VisitedVia (fun _ => true) x n := by
  constructor
  · intro h
    induction h with
    | here hc => exact VisitedVia.here hc
    | there hc _ ih => exact VisitedVia.there hc rfl ih
  · intro h
    induction h with
    | here hc => exact IsDesc.here hc
    | there hc _ _ ih => exact IsDesc.there hc ih

/-- Claim C7: `ts_filterd_visit` visits exactly the descendants of the root
that are reachable without entering a node on which the predicate returned
false (such a node is itself still visited); the unfiltered walk visits
exactly the proper descendants; the filtered visit sequence is a subsequence
of the full pre-order visit sequence, and each visited node is visited
exactly once (stated for trees whose full visit sequence has no duplicate
nodes). -/
theorem ts_filterd_visit_spec :
    (∀ (p : TSNode → Bool) (root x : TSNode),
      x ∈ ts_filterd_visit p root ↔ VisitedVia p x root) ∧
    (∀ (root x : TSNode),
      x ∈ ts_filterd_visit (fun _ => true) root ↔ IsDesc x root) ∧
    (∀ (p : TSNode → Bool) (root : TSNode),
      List.Sublist (ts_filterd_visit p root) (ts_filterd_visit (fun _ => true) root)) ∧
    (∀ (p : TSNode → Bool) (root x : TSNode),
      (ts_filterd_visit (fun _ => true) root).Nodup →
      x ∈ ts_filterd_visit p root →
      List.count x (ts_filterd_visit p root) = 1) := by
  have hmem : ∀ (p : TSNode → Bool) (root x : TSNode),
      x ∈ ts_filterd_visit p root ↔ VisitedVia p x root := by
    intro p root x
    rw [ts_filterd_visit, mem_visitMany_via, visitedVia_iff]
  refine ⟨hmem, ?_, ?_, ?_⟩
  · intro root x
    rw [hmem, isDesc_iff_visitedVia_true]
  · intro p root
    exact visitMany_sublist p root.children
  · intro p root x hnodup hx
    exact List.count_eq_one_of_mem ((visitMany_sublist p root.children).nodup hnodup) hx

/-- Witness for C7: on a concrete two-level chain the inner node is visited
exactly once. -/
theorem ts_filterd_visit_spec_witness :
    List.count (TSNode.mk "b" 0 0 0 5 false false "" [])
      (ts_filterd_visit (fun n => !(n.kind == "stop")) chainTree) = 1 :=
  ts_filterd_visit_spec.2.2.2 (fun n => !(n.kind == "stop")) chainTree
    (TSNode.mk "b" 0 0 0 5 false false "" []) (by decide) (by decide)

lemma mem_rowsOfRange (a b i : Nat) : i ∈ rowsOfRange a b ↔ a ≤ i ∧ i < b := by
  rw [rowsOfRange, List.mem_range'_1]
  omega

lemma mem_collectRows (l : List TSNode) (i : Nat) :
    i ∈ collectRows l ↔
      ∃ n ∈ l, n.kind = "nested_expr" ∧ i ∈ rowsOfRange n.startRow n.endRow := by
  induction l with
  | nil => simp [collectRows]
  | cons n ns ih =>
    rw [collectRows, List.mem_append, ih]
    cases hkb : (n.kind == "nested_expr") with
    | true =>
      have hk : n.kind = "nested_expr" := by simpa using hkb
      rw [if_pos rfl]
      constructor
      · intro h
        rcases h with h | ⟨m, hm, hkm, hrm⟩
        · exact ⟨n, List.mem_cons_self n ns, hk, h⟩
        · exact ⟨m, List.mem_cons_of_mem n hm, hkm, hrm⟩
      · rintro ⟨m, hm, hkm, hrm⟩
        rcases List.mem_cons.mp hm with rfl | hm
        · exact Or.inl hrm
        · exact Or.inr ⟨m, hm, hkm, hrm⟩
    | false =>
      have hk : ¬ n.kind = "nested_expr" := by
        intro hc
        rw [hc] at hkb
        simp at hkb
      rw [if_neg (by simp)]
      constructor
      · intro h
        rcases h with h | ⟨m, hm, hkm, hrm⟩
        · exact absurd h (List.not_mem_nil i)
        · exact ⟨m, List.mem_cons_of_mem n hm, hkm, hrm⟩
      · rintro ⟨m, hm, hkm, hrm⟩
        rcases List.mem_cons.mp hm with rfl | hm
        · exact absurd hkm hk
        · exact Or.inr ⟨m, hm, hkm, hrm⟩

lemma filterMap_if_eq_map_filter {α β : Type} (f : α → Bool) (y : β) (l : List α) :
    l.filterMap (fun a => if f a then none else some y) =
      (l.filter (fun a => !(f a))).map (fun _ => y) := by
  induction l with
  | nil => rfl
  | cons a l ih =>
    by_cases hf : f a = true <;>
      simp [List.filterMap_cons, List.filter_cons, hf, ih]

/-- Claim C4: for an `expr` node, `check_sanity` emits, when the node spans
more than one line, exactly one weight-100 line-break error diagnostic per
row of the node's (half-open, as iterated by the code) row span that is not
on the `ok_lines` collected from visited `nested_expr` sub-nodes, and none
for covered rows; a single-line `expr` node yields no diagnostics. -/
theorem check_sanity_expr_linebreaks :
    ∀ (node : TSNode) (pi : Nat), node.kind = "expr" →
      check_sanity [⟨pi, node⟩] = expr_sanity node ∧
      (node.startRow = node.endRow → expr_sanity node = []) ∧
      (node.startRow ≠ node.endRow →
        expr_sanity node =
          ((rowsOfRange node.startRow node.endRow).filter
            (fun i => !(ok_lines node).any (fun k => k == i))).map
            (fun _ => lineBreakError node)) ∧
      (∀ i, i ∈ ok_lines node ↔ ∃ d ∈ ts_filterd_visit sanityDescend node,
          d.kind = "nested_expr" ∧ d.startRow ≤ i ∧ i < d.endRow) ∧
      (∀ e ∈ expr_sanity node, e = lineBreakError node ∧ e.weight = 100 ∧
        e.severity = SEVERITY_ERROR ∧ e.msg = lineBreakMsg) := by
  intro node pi hkind
  have hchar : node.startRow ≠ node.endRow →
      expr_sanity node =
        ((rowsOfRange node.startRow node.endRow).filter
          (fun i => !(ok_lines node).any (fun k => k == i))).map
          (fun _ => lineBreakError node) := by
    intro hne
    rw [expr_sanity, if_neg (by simp [hne])]
    exact filterMap_if_eq_map_filter _ _ _
  refine ⟨?_, ?_, hchar, ?_, ?_⟩
  · simp [check_sanity, sanity_step, hkind]
  · intro heq
    rw [expr_sanity, if_pos (by simp [heq])]
  · intro i
    rw [ok_lines, mem_collectRows]
    constructor
    · rintro ⟨d, hd, hk, hr⟩
      obtain ⟨h1, h2⟩ := (mem_rowsOfRange _ _ _).mp hr
      exact ⟨d, hd, hk, h1, h2⟩
    · rintro ⟨d, hd, hk, h1, h2⟩
      exact ⟨d, hd, hk, (mem_rowsOfRange _ _ _).mpr ⟨h1, h2⟩⟩
  · intro e he
    by_cases hne : node.startRow = node.endRow
    · rw [expr_sanity, if_pos (by simp [hne])] at he
      exact absurd he (List.not_mem_nil e)
    · rw [hchar hne] at he
      obtain ⟨x, _, hx⟩ := List.mem_map.mp he
      exact ⟨hx.symm, by rw [← hx]; rfl, by rw [← hx]; rfl, by rw [← hx]; rfl⟩

/-- Witness for C4: a concrete two-line expression with a one-line
parenthesised sub-expression yields exactly one line-break diagnostic. -/
theorem check_sanity_expr_linebreaks_witness :
    check_sanity [⟨1, exprNode⟩] = expr_sanity exprNode ∧
    (exprNode.startRow = exprNode.endRow → expr_sanity exprNode = []) ∧
    (exprNode.startRow ≠ exprNode.endRow →
      expr_sanity exprNode =
        ((rowsOfRange exprNode.startRow exprNode.endRow).filter
          (fun i => !(ok_lines exprNode).any (fun k => k == i))).map
          (fun _ => lineBreakError exprNode)) ∧
    (∀ i, i ∈ ok_lines exprNode ↔ ∃ d ∈ ts_filterd_visit sanityDescend exprNode,
        d.kind = "nested_expr" ∧ d.startRow ≤ i ∧ i < d.endRow) ∧
    (∀ e ∈ expr_sanity exprNode, e = lineBreakError exprNode ∧ e.weight = 100 ∧
      e.severity = SEVERITY_ERROR ∧ e.msg = lineBreakMsg) :=
  check_sanity_expr_linebreaks exprNode 1 (by decide)

lemma expr_sanity_mem (node : TSNode) :
    ∀ e ∈ expr_sanity node, e = lineBreakError node := by
  intro e he
  rw [expr_sanity] at he
  by_cases hne : node.startRow = node.endRow
  · rw [if_pos (by simp [hne])] at he
    exact absurd he (List.not_mem_nil e)
  · rw [if_neg (by simp [hne])] at he
    obtain ⟨i, _, hif⟩ := List.mem_filterMap.mp he
    by_cases hc : (ok_lines node).any (fun k => k == i) = true
    · rw [if_pos hc] at hif
      exact absurd hif (by simp)
    · rw [if_neg hc] at hif
      exact (Option.some.inj hif).symm

lemma check_sanity_foldl (ms : List QueryMatch) :
    ∀ (acc : List ErrorInfo) (seen : List Nat),
      (ms.foldl sanity_step (acc, seen)).1 = acc ++ sanity_run seen ms := by
  induction ms with
  | nil =>
    intro acc seen
    rw [List.foldl_nil, sanity_run, List.append_nil]
  | cons m ms ih =>
    intro acc seen
    rw [List.foldl_cons, sanity_run, sanity_step]
    by_cases hkb : (m.node.kind == "expr") = true
    · simp only [hkb, if_true]
      rw [ih, List.append_assoc]
    · simp only [if_neg hkb]
      by_cases hpb : (m.pattern_index == 0) = true
      · simp only [hpb, if_true]
        rw [ih]
        simp [List.append_assoc]
      · simp only [if_neg hpb]
        rw [ih, List.append_assoc]

lemma check_sanity_eq_run (ms : List QueryMatch) :
    check_sanity ms = sanity_run [] ms := by
  rw [check_sanity, check_sanity_foldl ms [] [], List.nil_append]

lemma dupErrCount_append (x : Nat) (a b : List ErrorInfo) :
    dupErrCount x (a ++ b) = dupErrCount x a + dupErrCount x b := by
  rw [dupErrCount, dupErrCount, dupErrCount, List.filter_append, List.length_append]

lemma dupErrCount_eq_zero (x : Nat) (l : List ErrorInfo)
    (h : ∀ e ∈ l, e.msg ≠ headerMsg) : dupErrCount x l = 0 := by
  rw [dupErrCount]
  have hnil : l.filter (fun e => e.msg == headerMsg && e.location.start.line == x) = [] := by
    rw [List.filter_eq_nil_iff]
    intro e he
    simp [h e he]
  rw [hnil]
  rfl

lemma dupErrCount_single_ne (x : Nat) (e : ErrorInfo) (h : e.msg ≠ headerMsg) :
    dupErrCount x [e] = 0 :=
  dupErrCount_eq_zero x [e] (fun e' he' => by
    rw [List.mem_singleton.mp he']
    exact h)

lemma dupErrCount_expr (x : Nat) (node : TSNode) :
    dupErrCount x (expr_sanity node) = 0 :=
  dupErrCount_eq_zero x _ (fun e he => by
    rw [expr_sanity_mem node e he]
    exact (show lineBreakMsg ≠ headerMsg by decide))

lemma dupErrCount_headerError (x : Nat) (node : TSNode) :
    dupErrCount x [headerError node] = if node.startRow == x then 1 else 0 := by
  rw [dupErrCount, List.filter_cons]
  cases hb : (node.startRow == x) with
  | true =>
    have hr : node.startRow = x := by simpa using hb
    rw [if_pos (by simp [headerError, node_range, hr]), if_pos rfl]
    rfl
  | false =>
    have hr : ¬ node.startRow = x := by simpa using hb
    rw [if_neg (by simp [headerError, node_range, hr]), if_neg (by simp)]
    rfl

lemma headerCount_cons (x : Nat) (m : QueryMatch) (ms : List QueryMatch) :
    headerCount x (m :: ms) =
      (if (!(m.node.kind == "expr") && m.pattern_index == 0 && m.node.startRow == x)
        then 1 else 0) + headerCount x ms := by
  rw [headerCount, headerCount, List.filter_cons]
  cases hb : (!(m.node.kind == "expr") && m.pattern_index == 0 && m.node.startRow == x) with
  | true =>
    rw [if_pos rfl, if_pos rfl, List.length_cons]
    omega
  | false =>
    rw [if_neg (by simp), if_neg (by simp)]
    omega

lemma headerCount_append (x : Nat) (a b : List QueryMatch) :
    headerCount x (a ++ b) = headerCount x a + headerCount x b := by
  rw [headerCount, headerCount, headerCount, List.filter_append, List.length_append]

lemma dupErrCount_sanity_run (x : Nat) (ms : List QueryMatch) :
    ∀ seen : List Nat,
      dupErrCount x (sanity_run seen ms) =
        if seen.contains x then headerCount x ms else headerCount x ms - 1 := by
  induction ms with
  | nil =>
    intro seen
    rw [sanity_run]
    cases seen.contains x <;> simp [dupErrCount, headerCount]
  | cons m ms ih =>
    intro seen
    rw [sanity_run, headerCount_cons]
    cases hkb : (m.node.kind == "expr") with
    | true =>
      rw [if_pos rfl, dupErrCount_append, dupErrCount_expr, ih seen]
      cases seen.contains x <;> simp
    | false =>
      rw [if_neg (by simp)]
      cases hpb : (m.pattern_index == 0) with
      | true =>
        rw [if_pos rfl, dupErrCount_append, dupErrCount_append, ih]
        have he1 : dupErrCount x
            (if (m.node.startRow == m.node.endRow) = true then []
             else [lineBreakError m.node]) = 0 := by
          split
          · rfl
          · exact dupErrCount_single_ne x _ (show lineBreakMsg ≠ headerMsg by decide)
        have he2 : dupErrCount x
            (if seen.contains m.node.startRow then [headerError m.node] else []) =
            if (seen.contains m.node.startRow && (m.node.startRow == x)) then 1 else 0 := by
          cases hs : seen.contains m.node.startRow with
          | true =>
            rw [if_pos rfl, dupErrCount_headerError]
            simp
          | false =>
            rw [if_neg (by simp)]
            simp [dupErrCount]
        rw [he1, he2]
        cases hrb : (m.node.startRow == x) with
        | true =>
          have hr : m.node.startRow = x := by simpa using hrb
          rw [hr, List.contains_cons]
          cases hs : seen.contains x with
          | true => simp
          | false => simp
        | false =>
          have hr : m.node.startRow ≠ x := by simpa using hrb
          have hx : (x == m.node.startRow) = false := by
            simp [Ne.symm hr]
          rw [List.contains_cons, hx]
          cases hs : seen.contains x with
          | true => simp
          | false => simp
      | false =>
        rw [if_neg (by simp), dupErrCount_append, ih seen]
        have he1 : dupErrCount x
            (if (m.node.startRow == m.node.endRow) = true then []
             else [multilineError m.node]) = 0 := by
          split
          · rfl
          · exact dupErrCount_single_ne x _ (show multilineMsg ≠ headerMsg by decide)
        rw [he1]
        cases seen.contains x <;> simp

/-- Claim C5 counterexample: at a concrete input with two header-pattern
nodes starting on the same line, `check_sanity` emits no diagnostic carrying
the message "features have to be in different lines" claimed by the spec —
the code spells its message "features have to be in diffrent lines" (exactly
one such diagnostic is emitted, on the second header). -/
theorem check_sanity_header_msg_counterexample :
    ((check_sanity [⟨0, hNode1⟩, ⟨0, hNode2⟩]).filter
      (fun e => e.msg == "features have to be in different lines")).length = 0 ∧
    ((check_sanity [⟨0, hNode1⟩, ⟨0, hNode2⟩]).filter
      (fun e => e.msg == "features have to be in diffrent lines")).length = 1 := by
  decide

/-- Claim C5 (amended: the emitted message is spelled "features have to be in
diffrent lines" in the code): whenever exactly two header-pattern matches
(pattern index 0, not captured as `expr`) start on row `x` — one inside `pre`
and the later match `b`, with none in `post` — `check_sanity` emits exactly
one weight-100 duplicate-header diagnostic for row `x`: none yet while only
`pre` is processed, and exactly one as soon as `b` (the second occurrence) is
processed, regardless of the other matches in `pre` and `post`. -/
theorem check_sanity_duplicate_header :
    ∀ (pre post : List QueryMatch) (b : QueryMatch) (x : Nat),
      b.pattern_index = 0 → b.node.kind ≠ "expr" → b.node.startRow = x →
      headerCount x pre = 1 → headerCount x post = 0 →
      dupErrCount x (check_sanity pre) = 0 ∧
      dupErrCount x (check_sanity (pre ++ [b])) = 1 ∧
      dupErrCount x (check_sanity (pre ++ b :: post)) = 1 := by
  intro pre post b x hp hk hr h1 h0
  have hpred : (!(b.node.kind == "expr") && b.pattern_index == 0 && b.node.startRow == x)
      = true := by
    simp [hk, hp, hr]
  have hb1 : headerCount x [b] = 1 := by
    rw [headerCount, List.filter_cons, if_pos hpred]
    rfl
  have hkey : ∀ ms, dupErrCount x (check_sanity ms) = headerCount x ms - 1 := by
    intro ms
    rw [check_sanity_eq_run, dupErrCount_sanity_run]
    simp
  refine ⟨?_, ?_, ?_⟩
  · rw [hkey, h1]
  · rw [hkey, headerCount_append, h1, hb1]
  · rw [hkey, headerCount_append, h1, headerCount_cons, hpred, if_pos rfl, h0]

/-- Witness for C5: a concrete run with two same-row headers. -/
theorem check_sanity_duplicate_header_witness :
    dupErrCount 3 (check_sanity [⟨0, hNode1⟩]) = 0 ∧
    dupErrCount 3 (check_sanity ([⟨0, hNode1⟩] ++ [⟨0, hNode2⟩])) = 1 ∧
    dupErrCount 3 (check_sanity ([⟨0, hNode1⟩] ++ ⟨0, hNode2⟩ :: [])) = 1 :=
  check_sanity_duplicate_header [⟨0, hNode1⟩] [] ⟨0, hNode2⟩ 3 rfl (by decide)
    (by decide) (by decide) (by decide)

/-- Claim C6: `classify_error` always reports severity error and weight 80,
with message "missing lhs or rhs expression" exactly when the node's text
spans a single line and contains one of the operator substrings, and
"unknown syntax error" otherwise; and for every visited missing-node marker
`check_errors` directly emits one `missing <kind>` diagnostic with weight 80,
bypassing the substring heuristic. -/
theorem classify_error_spec :
    (∀ n : TSNode, (classify_error n).severity = SEVERITY_ERROR ∧
      (classify_error n).weight = 80 ∧
      ((classify_error n).msg = missingLhsRhsMsg ↔
        (n.startRow = n.endRow ∧ containsOperator n.text = true)) ∧
      ((classify_error n).msg = unknownSyntaxMsg ↔
        ¬(n.startRow = n.endRow ∧ containsOperator n.text = true))) ∧
    (∀ root n, n ∈ ts_filterd_visit errorsDescend root → n.isMissing = true →
      missingError n ∈ check_errors root ∧
      (missingError n).msg = "missing " ++ n.kind ∧
      (missingError n).weight = 80) := by
  have hne : missingLhsRhsMsg ≠ unknownSyntaxMsg := by decide
  constructor
  · intro n
    rw [classify_error]
    by_cases h1 : n.startRow = n.endRow
    · rw [if_pos (by simp [h1])]
      by_cases h2 : containsOperator n.text = true
      · rw [if_pos h2]
        refine ⟨rfl, rfl, ⟨fun _ => ⟨h1, h2⟩, fun _ => rfl⟩, ?_⟩
        exact ⟨fun hmsg => absurd hmsg hne, fun hcon => absurd ⟨h1, h2⟩ hcon⟩
      · rw [if_neg h2]
        refine ⟨rfl, rfl, ?_, ?_⟩
        · exact ⟨fun hmsg => absurd hmsg (Ne.symm hne),
            fun hc => absurd hc.2 h2⟩
        · exact ⟨fun _ hc => h2 hc.2, fun _ => rfl⟩
    · rw [if_neg (by simp [h1])]
      refine ⟨rfl, rfl, ?_, ?_⟩
      · exact ⟨fun hmsg => absurd hmsg (Ne.symm hne), fun hc => absurd hc.1 h1⟩
      · exact ⟨fun _ hc => h1 hc.1, fun _ => rfl⟩
  · intro root n hmem hmiss
    refine ⟨?_, rfl, rfl⟩
    rw [check_errors]
    exact List.mem_filterMap.mpr ⟨n, hmem, by rw [if_pos hmiss]⟩

/-- Witness for C6: the concrete missing leaf of `missTree` is reported as
`missing name` with weight 80. -/
theorem classify_error_spec_witness :
    missingError missNode ∈ check_errors missTree ∧
    (missingError missNode).msg = "missing " ++ missNode.kind ∧
    (missingError missNode).weight = 80 :=
  classify_error_spec.2 missTree missNode (by decide) (by decide)

/-- Claim C8: `load` never overwrites an entry in state `OwnedByEditor`;
`remove` with `by_editor = false` never removes an `OwnedByEditor` entry and
notifies nothing; `remove` with `by_editor = true` removes an existing entry
regardless of its state and notifies the semantic registry's delete. -/
theorem ownership_load_remove_spec :
    (∀ (m : DocMap) uri file d, m uri = some d →
      d.state = DocumentState.OwnedByEditor → Backend.load m uri file = m) ∧
    (∀ (m : DocMap) uri d, m uri = some d →
      d.state = DocumentState.OwnedByEditor →
      Backend.remove m uri false = (m, false)) ∧
    (∀ (m : DocMap) uri d, m uri = some d →
      Backend.remove m uri true = (removeDoc m uri, true) ∧
      (Backend.remove m uri true).1 uri = none) := by
  refine ⟨?_, ?_, ?_⟩
  · intro m uri file d hd hstate
    simp [Backend.load, hd, hstate]
  · intro m uri d hd hstate
    simp [Backend.remove, hd, hstate]
  · intro m uri d hd
    constructor
    · simp [Backend.remove, hd]
    · simp [Backend.remove, hd, removeDoc]

/-- Witness for C8: a concrete editor-owned entry survives a load and a
non-editor removal, and an editor removal evicts it. -/
theorem ownership_load_remove_spec_witness :
    Backend.load (insertDoc emptyDocMap "u" editorDraft) "u" (some (9, some "new")) =
      insertDoc emptyDocMap "u" editorDraft ∧
    Backend.remove (insertDoc emptyDocMap "u" editorDraft) "u" false =
      (insertDoc emptyDocMap "u" editorDraft, false) ∧
    Backend.remove (insertDoc emptyDocMap "u" editorDraft) "u" true =
      (removeDoc (insertDoc emptyDocMap "u" editorDraft) "u", true) ∧
    (Backend.remove (insertDoc emptyDocMap "u" editorDraft) "u" true).1 "u" = none :=
  ⟨ownership_load_remove_spec.1 _ "u" (some (9, some "new")) editorDraft (by decide) rfl,
   ownership_load_remove_spec.2.1 _ "u" editorDraft (by decide) rfl,
   (ownership_load_remove_spec.2.2 _ "u" editorDraft (by decide)).1,
   (ownership_load_remove_spec.2.2 _ "u" editorDraft (by decide)).2⟩

/-- Claim C9: for an existing `OwnedByOs t'` entry, `load_blocking` with a
file of modification time `t` replaces the entry (with the fresh content and
`OwnedByOs t`) only when `t' < t`; when `t ≤ t'` the entry is unchanged, and
an open/metadata failure or a read failure leaves the map unchanged. -/
theorem load_blocking_freshness :
    ∀ (m : DocMap) uri t' data', m uri = some ⟨DocumentState.OwnedByOs t', data'⟩ →
      (∀ t data, t' < t →
        load_blocking m uri (some (t, some data)) =
          insertDoc m uri ⟨DocumentState.OwnedByOs t, data⟩) ∧
      (∀ t data, t ≤ t' → load_blocking m uri (some (t, some data)) = m) ∧
      load_blocking m uri none = m ∧
      (∀ t, load_blocking m uri (some (t, none)) = m) := by
  intro m uri t' data' hm
  refine ⟨?_, ?_, rfl, ?_⟩
  · intro t data hlt
    simp [load_blocking, hm, DocumentState.can_update, hlt]
  · intro t data hle
    have hnlt : ¬ t' < t := Nat.not_lt.mpr hle
    simp [load_blocking, hm, DocumentState.can_update, hnlt]
  · intro t
    simp [load_blocking, hm, DocumentState.can_update]

/-- Witness for C9: a concrete OS-owned entry at modification time 5 accepts
time 7, rejects time 4, and survives both failure modes. -/
theorem load_blocking_freshness_witness :
    (load_blocking (insertDoc emptyDocMap "u" osDraft) "u" (some (7, some "new")) =
      insertDoc (insertDoc emptyDocMap "u" osDraft) "u"
        ⟨DocumentState.OwnedByOs 7, "new"⟩) ∧
    (load_blocking (insertDoc emptyDocMap "u" osDraft) "u" (some (4, some "old")) =
      insertDoc emptyDocMap "u" osDraft) ∧
    load_blocking (insertDoc emptyDocMap "u" osDraft) "u" none =
      insertDoc emptyDocMap "u" osDraft ∧
    load_blocking (insertDoc emptyDocMap "u" osDraft) "u" (some (9, none)) =
      insertDoc emptyDocMap "u" osDraft := by
  have h := load_blocking_freshness (insertDoc emptyDocMap "u" osDraft) "u" 5 "disk"
    (by decide)
  exact ⟨h.1 7 "new" (by decide), h.2.1 4 "old" (by decide), h.2.2.1, h.2.2.2 9⟩

/-- Claim C10: a `did_change` notification for a URI present in the document
map updates that draft and immediately publishes an empty diagnostic list for
the URI; for an absent URI nothing is updated and nothing is published. -/
theorem did_change_clears_diagnostics :
    ∀ (m : DocMap) uri (upd : AsyncDraft → AsyncDraft),
      (∀ d, m uri = some d →
        did_change m uri upd = (insertDoc m uri (upd d), some [])) ∧
      (m uri = none → did_change m uri upd = (m, none)) := by
  intro m uri upd
  constructor
  · intro d hd
    rw [did_change, hd]
  · intro h
    rw [did_change, h]

/-- Witness for C10: a present entry gets the empty publish, an absent URI
publishes nothing. -/
theorem did_change_clears_diagnostics_witness :
    did_change (insertDoc emptyDocMap "u" osDraft) "u" id =
      (insertDoc (insertDoc emptyDocMap "u" osDraft) "u" (id osDraft), some []) ∧
    did_change emptyDocMap "u" id = (emptyDocMap, none) :=
  ⟨(did_change_clears_diagnostics (insertDoc emptyDocMap "u" osDraft) "u" id).1
      osDraft (by decide),
   (did_change_clears_diagnostics emptyDocMap "u" id).2 rfl⟩

end Uvls
